import Mathlib

/-!
Shallow embedding of the `cl` cluster-command tool (src/main1.go) and proofs
about the claims of its specification.

Strings are modelled as `List Char`; Go standard-library helpers used by the
source (`strings.Split`, `strings.Contains`, `strings.TrimSpace`,
`strings.Replace`, `net.SplitHostPort`, `net.JoinHostPort`, `filepath.Join`)
are translated explicitly below on that representation.
-/

/-- Strings in the embedding: lists of characters. -/
abbrev Str := List Char

/-- Convenience conversion from a Lean string literal to the embedding. -/
def str (s : String) : Str := s.data

/-- ASCII whitespace, as recognised by `unicode.IsSpace` on the ASCII range
(the inputs of interest are ASCII). -/
def isSpaceChar (c : Char) : Bool :=
  c == ' ' || c == '\t' || c == '\n' || c == '\r' || c == '\x0b' || c == '\x0c'

/-- `strings.TrimSpace`: drop whitespace from both ends. -/
def trimSpace (s : Str) : Str :=
  ((s.dropWhile isSpaceChar).reverse.dropWhile isSpaceChar).reverse

/-- Split a string at the first occurrence of character `c`:
`some (before, after)` when `c` occurs, `none` otherwise.  This is the
primitive from which the source's `strings.Contains` / `strings.Split`
index accesses are expressed. -/
def breakAtFirstChar (c : Char) : Str → Option (Str × Str)
  | [] => none
  | x :: xs =>
    if x = c then some ([], xs)
    else
      match breakAtFirstChar c xs with
      | none => none
      | some (pre, post) => some (x :: pre, post)

/-- Split at the last occurrence of `c` (used by `net.SplitHostPort`, which
looks for the last colon). -/
def breakAtLastChar (c : Char) (s : Str) : Option (Str × Str) :=
  match breakAtFirstChar c s.reverse with
  | none => none
  | some (post, pre) => some (pre.reverse, post.reverse)

/-- `strings.Split` on a one-character separator. -/
def splitOnChar (c : Char) : Str → List Str
  | [] => [[]]
  | x :: xs =>
    if x = c then [] :: splitOnChar c xs
    else
      match splitOnChar c xs with
      | [] => [[x]]
      | t :: ts => (x :: t) :: ts

/-- `strings.Replace(s, string(c), repl, 1)` for a one-character pattern:
replace the first occurrence of `c` by `repl`. -/
def replaceFirstChar (c : Char) (repl : Str) : Str → Str
  | [] => []
  | x :: xs => if x = c then repl ++ xs else x :: replaceFirstChar c repl xs

/-- Fuel-driven worker for `replaceAll`; the fuel is the length of the
string being scanned, which bounds the number of scanning steps. -/
def replaceAllAux (pat repl : Str) : Nat → Str → Str
  | _, [] => []
  | 0, s => s
  | n + 1, c :: cs =>
    if pat.isPrefixOf (c :: cs) then
      repl ++ replaceAllAux pat repl n (List.drop (pat.length - 1) cs)
    else
      c :: replaceAllAux pat repl n cs

/-- `strings.Replace(s, pat, repl, -1)`: replace every (leftmost,
non-overlapping) occurrence of `pat` by `repl`.  The source only calls this
with a non-empty pattern, so the empty-pattern case just returns `s`. -/
def replaceAll (pat repl s : Str) : Str :=
  if pat = [] then s else replaceAllAux pat repl s.length s

/-- `strings.Replace(string(b), "\n", "", -1)`: remove every newline. -/
def stripNewlines (b : Str) : Str := b.filter (fun c => !(c == '\n'))

/-- The ambient environment the source reads: `os.Getenv("USER")` and
`os.Getenv("HOME")`. -/
structure Env where
  user : Str
  home : Str
deriving DecidableEq

/-- The `host` struct of the source. -/
structure host where
  user : Str
  addr : Str
  identity : Str
deriving DecidableEq

/-- `filepath.Join(HOME, ".ssh", "id_rsa")`, modelled for clean `HOME`
paths without a trailing slash (an empty `HOME` yields `.ssh/id_rsa`,
as `filepath.Join` drops empty components). -/
def defaultIdentity (env : Env) : Str :=
  (if env.home = [] then [] else env.home ++ ['/']) ++ str ".ssh/id_rsa"

/-- `net.SplitHostPort`: split `host:port`, taking the last colon as the
separator; bracketed `[host]:port` forms are handled as in the Go source.
On any error the Go function returns empty host and port (the source
ignores the error value), so the model returns `([], [])` there. -/
def splitHostPort (s : Str) : Str × Str :=
  match breakAtLastChar ':' s with
  | none => ([], [])
  | some (hostPart, portPart) =>
    if s.head? = some '[' then
      match breakAtFirstChar ']' s with
      | none => ([], [])
      | some (pre, post) =>
        match post with
        | ':' :: rest =>
          if ':' ∈ rest then ([], [])
          else if '[' ∈ List.drop 1 s then ([], [])
          else if ']' ∈ rest then ([], [])
          else (List.drop 1 pre, rest)
        | _ => ([], [])
    else
      if ':' ∈ hostPart then ([], [])
      else if '[' ∈ s then ([], [])
      else if ']' ∈ s then ([], [])
      else (hostPart, portPart)

/-- `net.JoinHostPort`. -/
def joinHostPort (hostP portP : Str) : Str :=
  if ':' ∈ hostP then '[' :: hostP ++ ']' :: ':' :: portP
  else hostP ++ ':' :: portP

/-- The Go panic raised by indexing an empty string (`h.identity[0]` in
`unmarshal` when the token after the first space is empty). -/
inductive PanicErr where
  | indexOutOfRange
deriving DecidableEq

/-- The user/address part of a host line (source lines 78–95): optional
`user@` override, then `host[:port]` with the port defaulting to `22`. -/
def parseAddrUser (env : Env) (ident : Str) (line : Str) : host :=
  let (user, line2) :=
    match breakAtFirstChar '@' line with
    | some (q0, rest) => (q0, rest.takeWhile (fun c => !(c == '@')))
    | none => (env.user, line)
  let hp := splitHostPort line2
  let hostP := if hp.1.isEmpty then line2 else hp.1
  let portP := if hp.2.isEmpty then ['2', '2'] else hp.2
  { user := user, addr := joinHostPort hostP portP, identity := ident }

/-- One trimmed, non-blank, non-header inventory line (source lines 57–97).
`parts` of `strings.Split(line, " ")` are expressed via
`breakAtFirstChar`: `parts[0]` is the text before the first space and
`parts[1]` the text from there to the next space.  Accessing
`h.identity[0]` on an empty `parts[1]` is the index-out-of-range panic. -/
def parseHostLine (env : Env) (line0 : Str) : Except PanicErr host :=
  match breakAtFirstChar ' ' line0 with
  | some (p0, rest) =>
    let p1 := rest.takeWhile (fun c => !(c == ' '))
    match p1 with
    | [] => .error .indexOutOfRange
    | c :: cs =>
      let ident := if c = '~' then replaceFirstChar '~' env.home (c :: cs) else c :: cs
      .ok (parseAddrUser env ident p0)
  | none => .ok (parseAddrUser env (defaultIdentity env) line0)

/-- The Go `map[string][]host`, as an association list (keyed lookup is all
the source uses; insertion order of the model is first-host-appearance). -/
abbrev ClusterMap := List (Str × List host)

/-- Map lookup. -/
def mapLookup : ClusterMap → Str → Option (List host)
  | [], _ => none
  | (k, v) :: rest, key => if k = key then some v else mapLookup rest key

/-- Map update (insert or replace). -/
def mapSet : ClusterMap → Str → List host → ClusterMap
  | [], key, v => [(key, v)]
  | (k, w) :: rest, key, v =>
    if k = key then (key, v) :: rest else (k, w) :: mapSet rest key v

/-- The scanning loop of `unmarshal` (source lines 43–98): trim each line,
skip blanks, a trailing `':'` opens a section, anything else is parsed as a
host line and appended to the current section (creating the entry on first
use, as the source's `if _, ok := m[curr]` + `append` do together). -/
def unmarshalLines (env : Env) : Str → ClusterMap → List Str → Except PanicErr ClusterMap
  | _, m, [] => .ok m
  | curr, m, l :: rest =>
    let line := trimSpace l
    if line.isEmpty then unmarshalLines env curr m rest
    else if line.getLast? == some ':' then unmarshalLines env line.dropLast m rest
    else
      match parseHostLine env line with
      | .error e => .error e
      | .ok hrec =>
        unmarshalLines env curr (mapSet m curr ((mapLookup m curr).getD [] ++ [hrec])) rest

/-- `unmarshal` (source lines 37–101), starting from the implicit unnamed
section `""` and an empty map.  A `.error` value models the Go runtime
panic of claim C10. -/
def unmarshal (env : Env) (input : List Str) : Except PanicErr ClusterMap :=
  unmarshalLines env [] [] input

/-- The section in force after scanning `ls` starting from section `curr`:
the name of the nearest preceding header, tracked exactly as the `curr`
variable of `unmarshal` is. -/
def sectionFold (curr : Str) (ls : List Str) : Str :=
  ls.foldl
    (fun c l =>
      let t := trimSpace l
      if !t.isEmpty && t.getLast? == some ':' then t.dropLast else c)
    curr

/-- Lines on which `unmarshal` cannot hit the index-out-of-range panic:
blank, header, or a host line whose token after the first space is
non-empty. -/
def goodLineB (l : Str) : Bool :=
  let t := trimSpace l
  t.isEmpty || t.getLast? == some ':' ||
    (match breakAtFirstChar ' ' t with
     | none => true
     | some (_, rest) => !(rest.takeWhile (fun c => !(c == ' '))).isEmpty)

deriving instance DecidableEq for Except

/-- The raw inventory text retained by `main` (the read-line loop appends
each line followed by a newline to `saveHosts`, source lines 172–182). -/
def rawText (ls : List Str) : Str :=
  ls.foldl (fun acc l => acc ++ l ++ ['\n']) []

/-- What the remote command returned at a session: either it ran to
completion (`none`), exited non-zero (`ssh.ExitError`), or failed with
some other error. -/
inductive CmdErr where
  | exitError
  | otherErr (e : Str)
deriving DecidableEq

/-- The environment's answer to one credential attempt: where in `run`
(source lines 103–150) the attempt stopped, or the command outcome. -/
inductive SessionStep where
  | readKeyErr (e : Str)
  | parseKeyErr (e : Str)
  | dialErr (e : Str)
  | sessionErr (e : Str)
  | cmdRan (out : Str) (cmdErr : Option CmdErr)
deriving DecidableEq

/-- `run` (source lines 103–150) as a function of the attempt's
`SessionStep`: every pre-command failure returns empty output and the
error; `sess.CombinedOutput`'s error is surfaced unless it is an
`*ssh.ExitError`, which is swallowed (lines 143–149). -/
def run : SessionStep → Str × Option Str
  | .readKeyErr e => ([], some e)
  | .parseKeyErr e => ([], some e)
  | .dialErr e => ([], some e)
  | .sessionErr e => ([], some e)
  | .cmdRan b none => (b, none)
  | .cmdRan b (some .exitError) => (b, none)
  | .cmdRan b (some (.otherErr e)) => (b, some e)

/-- Ambient behaviour a per-host task runs against: the session outcome
for the attempt with credential index `i`, and whether the
`os.OpenFile("hosts", ...)` in the success branch succeeds. -/
structure TaskEnv where
  net : Nat → SessionStep
  openHosts : Bool

/-- Observable trace of one per-host goroutine (source lines 202–228). -/
structure TaskResult where
  attempted : List Nat
  errsSent : List Str
  outSent : Option Str
  succIdx : Option Nat
  saveHosts : Str
  hostsWrites : List Str
  auditLines : List Str
deriving DecidableEq

/-- Initial task state: nothing attempted or emitted, the retained raw
inventory text as `saveHosts`. -/
def initTask (saveHosts : Str) : TaskResult :=
  ⟨[], [], none, none, saveHosts, [], []⟩

/-- The `"Host: "` prefix of a success message (source line 224). -/
def hostPrefix : Str := ['H', 'o', 's', 't', ':', ' ']

/-- The per-host credential loop (source lines 204–226), from credential
index `i`: a failed `run` sends the error on `errs` and advances; a
successful one removes the matched `user@addr identity` line from
`saveHosts`, rewrites the hosts file (when the open succeeds — on failure
the goroutine returns without logging or emitting), appends the audit
line, emits the output message and breaks. -/
def taskGo (env : TaskEnv) (h : host) : List Str → Nat → TaskResult → TaskResult
  | [], _, st => st
  | cert :: _rest, i, st =>
    let st1 : TaskResult := { st with attempted := st.attempted ++ [i] }
    match run (env.net i) with
    | (_, some e) =>
      taskGo env h _rest (i + 1) { st1 with errsSent := st1.errsSent ++ [e] }
    | (b, none) =>
      let outlog := h.user ++ '@' :: h.addr ++ ' ' :: h.identity
      let sh1 := replaceAll (outlog ++ ['\n']) [] st1.saveHosts
      let sh2 := replaceAll outlog [] sh1
      if env.openHosts then
        { st1 with
            saveHosts := sh2,
            hostsWrites := st1.hostsWrites ++ [sh2],
            auditLines :=
              st1.auditLines ++ [h.user ++ '@' :: h.addr ++ ' ' :: (cert ++ ' ' :: stripNewlines b)],
            outSent := some (hostPrefix ++ h.addr ++ '\n' :: b),
            succIdx := some i }
      else
        { st1 with saveHosts := sh2, succIdx := some i }

/-- One whole per-host task over the credential catalog. -/
def hostTask (env : TaskEnv) (h : host) (certs : List Str) (saveHosts : Str) : TaskResult :=
  taskGo env h certs 0 (initTask saveHosts)

/-- Index of the first credential whose attempt succeeds, mirroring the
loop's break condition. -/
def firstOk (env : TaskEnv) : Nat → List Str → Option Nat
  | _, [] => none
  | i, _ :: rest =>
    if (run (env.net i)).2 = none then some i else firstOk env (i + 1) rest

/-- A directory entry as seen by `ioutil.ReadDir`. -/
structure dirEntry where
  name : Str
  isDir : Bool
deriving DecidableEq

/-- `readCerts` (source lines 315–328): on a directory read error the
function prints the error and returns `nil` (the run continues); otherwise
it lists the names of the non-directory entries in enumeration order. -/
def readCerts : Option (List dirEntry) → List Str
  | none => []
  | some r => (r.filter (fun ri => !ri.isDir)).map (fun ri => ri.name)

/-- Outcome of the startup phase of `main` (source lines 152–229): whether
the process exited before spawning tasks, which hosts got a task, and the
file mutations performed so far (none happen during startup; hosts-file
writes and audit appends occur only inside per-host tasks). -/
structure StartupResult where
  exited : Option Int
  tasksSpawned : List host
  hostsWrites : List Str
  auditAppends : List Str
deriving DecidableEq

/-- The startup phase of `main`: usage check (`os.Exit(1)` when fewer than
3 arguments), opening `hosts` (exit 1 on failure), parsing it (a parse
panic aborts the process — Go exit status 2), and the cluster lookup
(`os.Exit(1)` on an unknown cluster, before any goroutine is spawned or
any file written). -/
def mainStartup (env : Env) (args : List Str) (hostsFile : Option (List Str)) : StartupResult :=
  if args.length < 3 then ⟨some 1, [], [], []⟩
  else
    match hostsFile with
    | none => ⟨some 1, [], [], []⟩
    | some ls =>
      match unmarshal env ls with
      | .error _ => ⟨some 2, [], [], []⟩
      | .ok m =>
        match mapLookup m (args.getD 1 []) with
        | none => ⟨some 1, [], [], []⟩
        | some hs => ⟨none, hs, [], []⟩

/-- The signals `signal.Notify` subscribes to (source line 236). -/
inductive Sig where
  | sigint
  | sigkill
deriving DecidableEq

/-- The `codes` signal-to-exit-code table (source lines 25–29). -/
def codes : Sig → Int
  | .sigint => 130
  | .sigkill => 137

/-- One event in an interleaved execution of the aggregation loop
(source lines 238–291) and the signal goroutine (lines 240–244):
`sigFired` is the signal goroutine running (`cancel()` then
`code = codes[sig]`); the rest are the select cases of the loop. -/
inductive AggEvent where
  | sigFired (s : Sig)
  | ctxDone
  | errMsg
  | errClosed
  | outMsg
  | outClosed
deriving DecidableEq

/-- The aggregation loop's state: the accumulated exit code and the two
channel variables (`true` once set to `nil`). -/
structure AggState where
  code : Int
  errsNil : Bool
  outNil : Bool
deriving DecidableEq

/-- The loop condition `errs != nil && out != nil`. -/
def aggLive (st : AggState) : Bool := !st.errsNil && !st.outNil

/-- One step of the interleaving.  Select cases only run while the loop is
live; the signal goroutine's `code = codes[sig]` runs regardless.  The
`errMsg` case sets `code = 1` unconditionally (source line 266); `ctxDone`
sets `out = nil` (line 258), ending the loop. -/
def aggStep (st : AggState) : AggEvent → AggState
  | .sigFired s => { st with code := codes s }
  | .ctxDone => if aggLive st then { st with outNil := true } else st
  | .errMsg => if aggLive st then { st with code := 1 } else st
  | .errClosed => if aggLive st then { st with errsNil := true } else st
  | .outMsg => st
  | .outClosed => if aggLive st then { st with outNil := true } else st

/-- Run the aggregation loop over a given interleaving of events, from
`code = 0` with both channels live. -/
def aggRun (evts : List AggEvent) : AggState :=
  evts.foldl aggStep ⟨0, false, false⟩

/-- Modelled from the spec: a section header line (a line ending in `:`,
§4.1). -/
def specHeaderLine (line : Str) : Bool := line.getLast? == some ':'

/-- Modelled from the spec: the `host[:port]` part of the host-line
grammar of §6 (standard `host:port` splitting, absent port allowed). -/
def specHostPort (s : Str) : Bool :=
  match splitOnChar ':' s with
  | [h] => !h.isEmpty
  | [h, p] => !h.isEmpty && !p.isEmpty
  | _ => false

/-- Modelled from the spec: the `[user@]host[:port]` address part of the
grammar of §6. -/
def specAddrSpec (s : Str) : Bool :=
  match splitOnChar '@' s with
  | [hp] => specHostPort hp
  | [u, hp] => !u.isEmpty && specHostPort hp
  | _ => false

/-- Modelled from the spec: a host entry line
`[user@]host[:port] [credentialPath]` (§6, §4.1): an address spec with an
optional single credential-path token. -/
def specHostEntryLine (line : Str) : Bool :=
  match splitOnChar ' ' line with
  | [addr] => specAddrSpec addr
  | [addr, cred] => specAddrSpec addr && !cred.isEmpty
  | _ => false

/-! ### Helper lemmas about the string primitives -/

theorem breakAtFirstChar_of_not_mem {c : Char} : ∀ {s : Str}, c ∉ s → breakAtFirstChar c s = none
  | [], _ => rfl
  | x :: xs, h => by
    have hx : ¬ x = c := by rintro rfl; exact h (List.mem_cons_self x xs)
    have ih := breakAtFirstChar_of_not_mem (s := xs) (fun hm => h (List.mem_cons_of_mem _ hm))
    simp [breakAtFirstChar, hx, ih]

theorem breakAtFirstChar_append {c : Char} : ∀ {a : Str} (b : Str), c ∉ a →
    breakAtFirstChar c (a ++ c :: b) = some (a, b)
  | [], b, _ => by simp [breakAtFirstChar]
  | x :: a', b, h => by
    have hx : ¬ x = c := by rintro rfl; exact h (List.mem_cons_self x a')
    have ih := breakAtFirstChar_append (a := a') b (fun hm => h (List.mem_cons_of_mem _ hm))
    simp [breakAtFirstChar, hx, ih]

theorem breakAtLastChar_of_not_mem {c : Char} {s : Str} (h : c ∉ s) :
    breakAtLastChar c s = none := by
  have h' : c ∉ s.reverse := by simpa using h
  simp [breakAtLastChar, breakAtFirstChar_of_not_mem h']

theorem breakAtLastChar_append {c : Char} {a b : Str} (h : c ∉ b) :
    breakAtLastChar c (a ++ c :: b) = some (a, b) := by
  have h' : c ∉ b.reverse := by simpa using h
  have hrev : (a ++ c :: b).reverse = b.reverse ++ c :: a.reverse := by simp
  simp [breakAtLastChar, hrev, breakAtFirstChar_append _ h']

theorem takeWhile_all {p : Char → Bool} {s : Str} (h : ∀ x ∈ s, p x = true) :
    s.takeWhile p = s :=
  List.takeWhile_eq_self_iff.mpr h

theorem splitHostPort_bare {hst : Str} (hcolon : ':' ∉ hst) : splitHostPort hst = ([], []) := by
  simp [splitHostPort, breakAtLastChar_of_not_mem hcolon]

theorem splitHostPort_pair {hst p : Str} (h1 : ':' ∉ hst) (h2 : '[' ∉ hst) (h3 : ']' ∉ hst)
    (h4 : hst ≠ []) (h5 : ':' ∉ p) (h6 : '[' ∉ p) (h7 : ']' ∉ p) :
    splitHostPort (hst ++ ':' :: p) = (hst, p) := by
  obtain ⟨x, xs, rfl⟩ := List.exists_cons_of_ne_nil h4
  have hx : ¬ x = '[' := by rintro rfl; exact h2 (List.mem_cons_self _ _)
  have hbl := breakAtLastChar_append (a := x :: xs) (b := p) (c := ':') h5
  simp only [List.cons_append] at hbl
  have hxs2 : '[' ∉ xs := fun hm => h2 (List.mem_cons_of_mem _ hm)
  have hxs3 : ']' ∉ xs := fun hm => h3 (List.mem_cons_of_mem _ hm)
  have hx3 : ¬ x = ']' := by rintro rfl; exact h3 (List.mem_cons_self _ _)
  have hx' : ¬ '[' = x := fun he => hx he.symm
  have hx3' : ¬ ']' = x := fun he => hx3 he.symm
  simp [splitHostPort, hbl, hx, h1, h6, h7, hxs2, hxs3, hx', hx3']

theorem parseAddrUser_bare {env : Env} {ident hst : Str}
    (h2 : '@' ∉ hst) (h3 : ':' ∉ hst) :
    parseAddrUser env ident hst = ⟨env.user, hst ++ [':', '2', '2'], ident⟩ := by
  simp [parseAddrUser, breakAtFirstChar_of_not_mem h2, splitHostPort_bare h3,
    joinHostPort, h3]

theorem parseAddrUser_userBare {env : Env} {ident u hst : Str}
    (hu : '@' ∉ u) (h2 : '@' ∉ hst) (h3 : ':' ∉ hst) :
    parseAddrUser env ident (u ++ '@' :: hst) = ⟨u, hst ++ [':', '2', '2'], ident⟩ := by
  have htw : hst.takeWhile (fun c => !(c == '@')) = hst :=
    takeWhile_all (fun x hx => by
      rcases eq_or_ne x '@' with rfl | hne
      · exact absurd hx h2
      · simp [hne])
  simp [parseAddrUser, breakAtFirstChar_append _ hu, htw, splitHostPort_bare h3,
    joinHostPort, h3]

theorem parseAddrUser_userHostPort {env : Env} {ident u hst p : Str}
    (hu : '@' ∉ u)
    (hh2 : '@' ∉ hst) (hh3 : ':' ∉ hst) (hh4 : '[' ∉ hst) (hh5 : ']' ∉ hst) (hh6 : hst ≠ [])
    (hp2 : '@' ∉ p) (hp3 : ':' ∉ p) (hp4 : '[' ∉ p) (hp5 : ']' ∉ p) (hp6 : p ≠ []) :
    parseAddrUser env ident (u ++ '@' :: (hst ++ ':' :: p)) = ⟨u, hst ++ ':' :: p, ident⟩ := by
  have hb : breakAtFirstChar '@' (u ++ '@' :: (hst ++ ':' :: p)) = some (u, hst ++ ':' :: p) :=
    breakAtFirstChar_append _ hu
  have htw : (hst ++ ':' :: p).takeWhile (fun c => !(c == '@')) = hst ++ ':' :: p :=
    takeWhile_all (fun x hx => by
      rcases eq_or_ne x '@' with rfl | hne
      · rcases List.mem_append.mp hx with hm | hm
        · exact absurd hm hh2
        · rcases List.mem_cons.mp hm with he | hm
          · exact absurd he (by decide)
          · exact absurd hm hp2
      · simp [hne])
  have hsp := splitHostPort_pair hh3 hh4 hh5 hh6 hp3 hp4 hp5
  have hne6 : (hst ++ ':' :: p).isEmpty = false := by
    obtain ⟨x, xs, rfl⟩ := List.exists_cons_of_ne_nil hh6; rfl
  have hpe : hst.isEmpty = false := by
    obtain ⟨x, xs, rfl⟩ := List.exists_cons_of_ne_nil hh6; rfl
  simp [parseAddrUser, hb, htw, hsp, hpe, joinHostPort, hh3, hp6]

/-! ### Helper lemmas about the per-host credential loop -/

theorem firstOk_le {env : TaskEnv} : ∀ {certs : List Str} {i k : Nat},
    firstOk env i certs = some k → i ≤ k
  | [], i, k, h => by simp [firstOk] at h
  | c :: rest, i, k, h => by
    by_cases hc : (run (env.net i)).2 = none
    · simp [firstOk, hc] at h; omega
    · have := @firstOk_le env rest (i + 1) k
        (by simpa [firstOk, hc] using h)
      omega

theorem firstOk_ok {env : TaskEnv} : ∀ {certs : List Str} {i k : Nat},
    firstOk env i certs = some k → (run (env.net k)).2 = none
  | [], i, k, h => by simp [firstOk] at h
  | c :: rest, i, k, h => by
    by_cases hc : (run (env.net i)).2 = none
    · simp [firstOk, hc] at h; exact h ▸ hc
    · exact @firstOk_ok env rest (i + 1) k (by simpa [firstOk, hc] using h)

theorem firstOk_least {env : TaskEnv} : ∀ {certs : List Str} {i k : Nat},
    firstOk env i certs = some k → ∀ j, i ≤ j → j < k → (run (env.net j)).2 ≠ none
  | [], i, k, h => by simp [firstOk] at h
  | c :: rest, i, k, h => by
    intro j hij hjk
    by_cases hc : (run (env.net i)).2 = none
    · simp [firstOk, hc] at h; omega
    · rcases Nat.eq_or_lt_of_le hij with rfl | hlt
      · exact hc
      · exact @firstOk_least env rest (i + 1) k
          (by simpa [firstOk, hc] using h) j hlt hjk

theorem firstOk_isSome {env : TaskEnv} : ∀ {certs : List Str} {i : Nat},
    (∃ j, j < certs.length ∧ (run (env.net (i + j))).2 = none) →
    (firstOk env i certs).isSome = true
  | [], i, h => by simp at h
  | c :: rest, i, h => by
    by_cases hc : (run (env.net i)).2 = none
    · simp [firstOk, hc]
    · obtain ⟨j, hj, hok⟩ := h
      match j, hj with
      | 0, _ => exact absurd (by simpa using hok) hc
      | j' + 1, hj =>
        have : (∃ j, j < rest.length ∧ (run (env.net (i + 1 + j))).2 = none) :=
          ⟨j', by simpa using hj, by have : i + 1 + j' = i + (j' + 1) := by omega
                                     rw [this]; exact hok⟩
        simpa [firstOk, hc] using firstOk_isSome this

theorem taskGo_succ {env : TaskEnv} {h : host} (hopen : env.openHosts = true) :
    ∀ {certs : List Str} {i k : Nat} (st : TaskResult)
      (hfo : firstOk env i certs = some k),
      (taskGo env h certs i st).succIdx = some k ∧
      (taskGo env h certs i st).attempted = st.attempted ++ List.range' i (k + 1 - i) ∧
      (taskGo env h certs i st).outSent =
        some (hostPrefix ++ h.addr ++ '\n' :: (run (env.net k)).1)
  | [], i, k, st, hfo => by simp [firstOk] at hfo
  | c :: rest, i, k, st, hfo => by
    rcases hrun : run (env.net i) with ⟨b, eo⟩
    cases eo with
    | none =>
      have hk : i = k := by simpa [firstOk, hrun] using hfo
      subst hk
      have h1 : i + 1 - i = 1 := by omega
      simp [taskGo, hrun, hopen, h1, List.range']
    | some e =>
      have hc : ¬ (run (env.net i)).2 = none := by simp [hrun]
      have hfo' : firstOk env (i + 1) rest = some k := by simpa [firstOk, hc] using hfo
      have hik : i + 1 ≤ k := firstOk_le hfo'
      obtain ⟨ih1, ih2, ih3⟩ := taskGo_succ hopen
        { st with attempted := st.attempted ++ [i], errsSent := st.errsSent ++ [e] } hfo'
      refine ⟨?_, ?_, ?_⟩
      · simpa [taskGo, hrun] using ih1
      · rw [show (taskGo env h (c :: rest) i st) =
            taskGo env h rest (i + 1)
              { st with attempted := st.attempted ++ [i], errsSent := st.errsSent ++ [e] } by
            simp [taskGo, hrun]]
        rw [ih2]
        have hsz : k + 1 - i = (k + 1 - (i + 1)) + 1 := by omega
        rw [hsz, List.range'_succ]
        simp
      · simpa [taskGo, hrun] using ih3

theorem taskGo_fail {env : TaskEnv} {h : host} :
    ∀ {certs : List Str} {i : Nat} (st : TaskResult)
      (hfail : ∀ j, j < certs.length → (run (env.net (i + j))).2 ≠ none),
      taskGo env h certs i st =
        { st with
            attempted := st.attempted ++ List.range' i certs.length,
            errsSent := st.errsSent ++
              (List.range' i certs.length).map (fun j => ((run (env.net j)).2).getD []) }
  | [], i, st, _ => by simp [taskGo, List.range']
  | c :: rest, i, st, hfail => by
    rcases hrun : run (env.net i) with ⟨b, eo⟩
    cases eo with
    | none =>
      have h0 := hfail 0 (Nat.succ_pos _)
      rw [Nat.add_zero] at h0
      exact absurd (by simp [hrun]) h0
    | some e =>
      have ih := @taskGo_fail env h rest (i + 1)
        { st with attempted := st.attempted ++ [i], errsSent := st.errsSent ++ [e] }
        (fun j hj => by
          have := hfail (j + 1) (by simpa using Nat.succ_lt_succ hj)
          simpa [Nat.add_assoc, Nat.add_comm 1 j] using this)
      have hstep : taskGo env h (c :: rest) i st =
          taskGo env h rest (i + 1)
            { st with attempted := st.attempted ++ [i], errsSent := st.errsSent ++ [e] } := by
        simp [taskGo, hrun]
      rw [hstep, ih]
      have hfi : ((run (env.net i)).2).getD [] = e := by simp [hrun]
      simp [List.range'_succ, hfi]

/-! ### Helper lemmas about `unmarshal` and the aggregation loop -/

theorem unmarshalLines_append {env : Env} :
    ∀ (xs : List Str) (curr : Str) (m : ClusterMap) (ys : List Str),
      unmarshalLines env curr m (xs ++ ys) =
        (match unmarshalLines env curr m xs with
         | .error e => .error e
         | .ok m2 => unmarshalLines env (sectionFold curr xs) m2 ys)
  | [], curr, m, ys => by simp [unmarshalLines, sectionFold]
  | l :: xs', curr, m, ys => by
    by_cases hE : (trimSpace l).isEmpty
    · have hnil : trimSpace l = [] := by simpa [List.isEmpty_iff] using hE
      have hS : sectionFold curr (l :: xs') = sectionFold curr xs' := by
        simp only [sectionFold, List.foldl_cons]
        congr 1
        rw [hnil]
        simp
      rw [show (l :: xs') ++ ys = l :: (xs' ++ ys) by rfl]
      simp only [unmarshalLines, hE, if_true, hS]
      exact unmarshalLines_append xs' curr m ys
    · have hE' : (trimSpace l).isEmpty = false := by simpa using hE
      by_cases hH : ((trimSpace l).getLast? == some ':') = true
      · have hS : sectionFold curr (l :: xs') =
            sectionFold ((trimSpace l).dropLast) xs' := by
          simp only [sectionFold, List.foldl_cons]
          congr 1
          rw [hE', hH]
          simp
        rw [show (l :: xs') ++ ys = l :: (xs' ++ ys) by rfl]
        simp only [unmarshalLines, hE, if_false, hH, if_true, hS]
        exact unmarshalLines_append xs' ((trimSpace l).dropLast) m ys
      · have hH' : ((trimSpace l).getLast? == some ':') = false := by simpa using hH
        have hS : sectionFold curr (l :: xs') = sectionFold curr xs' := by
          simp only [sectionFold, List.foldl_cons]
          congr 1
          rw [hH']
          simp
        rw [show (l :: xs') ++ ys = l :: (xs' ++ ys) by rfl]
        simp only [unmarshalLines, hE, if_false, hH, hS]
        cases hP : parseHostLine env (trimSpace l) with
        | error e => simp
        | ok hrec =>
          simp only []
          exact unmarshalLines_append xs' curr
            (mapSet m curr ((mapLookup m curr).getD [] ++ [hrec])) ys

theorem aggStep_code_cases (st : AggState) (e : AggEvent) :
    (aggStep st e).code = st.code ∨ (aggStep st e).code = 1 ∨
    (aggStep st e).code = 130 ∨ (aggStep st e).code = 137 := by
  cases e with
  | sigFired s => cases s <;> simp [aggStep, codes]
  | ctxDone => by_cases hl : aggLive st = true <;> simp [aggStep, hl]
  | errMsg => by_cases hl : aggLive st = true <;> simp [aggStep, hl]
  | errClosed => by_cases hl : aggLive st = true <;> simp [aggStep, hl]
  | outMsg => simp [aggStep]
  | outClosed => by_cases hl : aggLive st = true <;> simp [aggStep, hl]

theorem aggRun_code_mem : ∀ (evts : List AggEvent) (st : AggState),
    st.code = 0 ∨ st.code = 1 ∨ st.code = 130 ∨ st.code = 137 →
    ((evts.foldl aggStep st).code = 0 ∨ (evts.foldl aggStep st).code = 1 ∨
     (evts.foldl aggStep st).code = 130 ∨ (evts.foldl aggStep st).code = 137)
  | [], st, hst => by simpa using hst
  | e :: evts', st, hst => by
    rw [List.foldl_cons]
    apply aggRun_code_mem evts'
    rcases aggStep_code_cases st e with hh | hh | hh | hh <;> rw [hh] <;> tauto

theorem aggLive_ctxDone (st : AggState) : aggLive (aggStep st .ctxDone) = false := by
  rcases st with ⟨code, e, o⟩
  cases e <;> cases o <;> simp [aggStep, aggLive]

theorem aggLive_bothClosed (st : AggState) :
    aggLive (aggStep (aggStep st .errClosed) .outClosed) = false := by
  rcases st with ⟨code, e, o⟩
  cases e <;> cases o <;> simp [aggStep, aggLive]

/-! ### Concrete values used by witnesses and counterexamples -/

/-- A task environment where credential 0 is rejected and credential 1
authenticates and runs a command printing `hi`. -/
def envRetry : TaskEnv :=
  ⟨fun i => if i = 0 then .dialErr (str "no") else .cmdRan (str "hi") none, true⟩

/-- A task environment where every credential attempt fails at dial time. -/
def envFailAll : TaskEnv :=
  ⟨fun i => .dialErr (if i = 0 then str "e0" else str "e1"), true⟩

/-- A task environment where the remote command runs but exits non-zero. -/
def envExit : TaskEnv :=
  ⟨fun _ => .cmdRan (str "fail-output") (some .exitError), true⟩

/-- A concrete host record. -/
def hostEx : host := ⟨str "alice", str "10.0.0.1:22", str "/home/bob/.ssh/k1"⟩

/-! ### Claim theorems -/

/-- C1: for every host with at least one working credential among the
offered ones, the per-host task tries credentials strictly in catalog
order, terminates successfully at the lowest index whose attempt
succeeds (emitting that attempt's output), and never attempts any
credential after that success. -/
theorem perHostFirstSuccessWins (env : TaskEnv) (h : host) (certs : List Str) (sh : Str)
    (hopen : env.openHosts = true)
    (hex : ∃ j, j < certs.length ∧ (run (env.net j)).2 = none) :
    ∃ k, (run (env.net k)).2 = none ∧
      (∀ j, j < k → (run (env.net j)).2 ≠ none) ∧
      (hostTask env h certs sh).succIdx = some k ∧
      (hostTask env h certs sh).outSent =
        some (hostPrefix ++ h.addr ++ '\n' :: (run (env.net k)).1) ∧
      (hostTask env h certs sh).attempted = List.range (k + 1) ∧
      ∀ j ∈ (hostTask env h certs sh).attempted, j ≤ k := by
  have h0 : ∃ j, j < certs.length ∧ (run (env.net (0 + j))).2 = none := by simpa using hex
  have hsome := @firstOk_isSome env certs 0 h0
  obtain ⟨k, hk⟩ := Option.isSome_iff_exists.mp hsome
  obtain ⟨h1, h2, h3⟩ := taskGo_succ hopen (initTask sh) hk
  have hatt : (hostTask env h certs sh).attempted = List.range (k + 1) := by
    unfold hostTask
    rw [h2]
    have : (initTask sh).attempted = [] := rfl
    rw [this, List.nil_append, Nat.sub_zero, List.range_eq_range']
  refine ⟨k, firstOk_ok hk, ?_, ?_, ?_, hatt, ?_⟩
  · intro j hj
    exact firstOk_least hk j (Nat.zero_le j) hj
  · unfold hostTask; exact h1
  · unfold hostTask; exact h3
  · intro j hj
    rw [hatt] at hj
    exact Nat.lt_succ_iff.mp (List.mem_range.mp hj)

/-- Witness for C1 at the spec's scenario: credentials `[k1, k2]`, `k1`
rejected, `k2` accepted. -/
theorem perHostFirstSuccessWins_witness :
    ∃ k, (run (envRetry.net k)).2 = none ∧
      (∀ j, j < k → (run (envRetry.net j)).2 ≠ none) ∧
      (hostTask envRetry hostEx [str "k1", str "k2"] []).succIdx = some k ∧
      (hostTask envRetry hostEx [str "k1", str "k2"] []).outSent =
        some (hostPrefix ++ hostEx.addr ++ '\n' :: (run (envRetry.net k)).1) ∧
      (hostTask envRetry hostEx [str "k1", str "k2"] []).attempted = List.range (k + 1) ∧
      ∀ j ∈ (hostTask envRetry hostEx [str "k1", str "k2"] []).attempted, j ≤ k :=
  perHostFirstSuccessWins envRetry hostEx [str "k1", str "k2"] [] rfl
    ⟨1, by decide, by decide⟩

/-- C2 (amended): with zero working credentials the per-host task does not
emit exactly one Failure — it emits one Failure per failed attempt, in
order, the last of which carries the last attempted credential's error;
it emits no success outcome and performs no file write. -/
theorem perHostAllFailEmitsEach (env : TaskEnv) (h : host) (certs : List Str) (sh : Str)
    (hn : 0 < certs.length)
    (hfail : ∀ j, j < certs.length → (run (env.net j)).2 ≠ none) :
    (hostTask env h certs sh).errsSent =
        (List.range certs.length).map (fun j => ((run (env.net j)).2).getD []) ∧
    (hostTask env h certs sh).errsSent.length = certs.length ∧
    (hostTask env h certs sh).errsSent.getLast? =
        some (((run (env.net (certs.length - 1))).2).getD []) ∧
    (hostTask env h certs sh).outSent = none ∧
    (hostTask env h certs sh).hostsWrites = [] ∧
    (hostTask env h certs sh).auditLines = [] := by
  have hfail0 : ∀ j, j < certs.length → (run (env.net (0 + j))).2 ≠ none := by
    intro j hj
    simpa using hfail j hj
  have heq := @taskGo_fail env h certs 0 (initTask sh) hfail0
  have herr : (hostTask env h certs sh).errsSent =
      (List.range certs.length).map (fun j => ((run (env.net j)).2).getD []) := by
    unfold hostTask
    rw [heq]
    simp [initTask, List.range_eq_range']
  refine ⟨herr, ?_, ?_, ?_, ?_, ?_⟩
  · rw [herr]; simp
  · rw [herr]
    obtain ⟨n, hcl⟩ : ∃ n, certs.length = n + 1 := ⟨certs.length - 1, by omega⟩
    rw [hcl, List.range_succ, List.map_append]
    simp
  · unfold hostTask; rw [heq]; rfl
  · unfold hostTask; rw [heq]; rfl
  · unfold hostTask; rw [heq]; rfl

/-- Witness for C2's amended statement: two failing credentials. -/
theorem perHostAllFailEmitsEach_witness :
    (hostTask envFailAll hostEx [str "k1", str "k2"] []).errsSent =
        (List.range (List.length [str "k1", str "k2"])).map
          (fun j => ((run (envFailAll.net j)).2).getD []) ∧
    (hostTask envFailAll hostEx [str "k1", str "k2"] []).errsSent.length =
        List.length [str "k1", str "k2"] ∧
    (hostTask envFailAll hostEx [str "k1", str "k2"] []).errsSent.getLast? =
        some (((run (envFailAll.net (List.length [str "k1", str "k2"] - 1))).2).getD []) ∧
    (hostTask envFailAll hostEx [str "k1", str "k2"] []).outSent = none ∧
    (hostTask envFailAll hostEx [str "k1", str "k2"] []).hostsWrites = [] ∧
    (hostTask envFailAll hostEx [str "k1", str "k2"] []).auditLines = [] :=
  perHostAllFailEmitsEach envFailAll hostEx [str "k1", str "k2"] [] (by decide) (by decide)

/-- C2 counterexample: a host offered two credentials, both failing, emits
two Failure messages — not exactly one terminal Failure outcome. -/
theorem perHostTwoFailures_counterexample :
    (hostTask envFailAll hostEx [str "k1", str "k2"] []).errsSent = [str "e0", str "e1"] ∧
    (hostTask envFailAll hostEx [str "k1", str "k2"] []).errsSent.length ≠ 1 := by decide

/-- C6: a session in which the remote command ran but exited non-zero
(`*ssh.ExitError`) is treated as a success: `run` returns the combined
output with no error, the task stops at that credential, records no error,
and emits the output as a success message. -/
theorem remoteExitIsSuccess (env : TaskEnv) (h : host) (cert : Str) (rest : List Str)
    (i : Nat) (st : TaskResult) (b : Str)
    (hnet : env.net i = .cmdRan b (some .exitError))
    (hopen : env.openHosts = true) :
    run (env.net i) = (b, none) ∧
    (taskGo env h (cert :: rest) i st).succIdx = some i ∧
    (taskGo env h (cert :: rest) i st).errsSent = st.errsSent ∧
    (taskGo env h (cert :: rest) i st).outSent = some (hostPrefix ++ h.addr ++ '\n' :: b) ∧
    (taskGo env h (cert :: rest) i st).attempted = st.attempted ++ [i] := by
  have hr : run (env.net i) = (b, none) := by rw [hnet]; rfl
  refine ⟨hr, ?_, ?_, ?_, ?_⟩ <;> simp [taskGo, hr, hopen]

/-- Witness for C6. -/
theorem remoteExitIsSuccess_witness :
    run (envExit.net 0) = (str "fail-output", none) ∧
    (taskGo envExit hostEx [str "k1"] 0 (initTask [])).succIdx = some 0 ∧
    (taskGo envExit hostEx [str "k1"] 0 (initTask [])).errsSent = (initTask []).errsSent ∧
    (taskGo envExit hostEx [str "k1"] 0 (initTask [])).outSent =
      some (hostPrefix ++ hostEx.addr ++ '\n' :: str "fail-output") ∧
    (taskGo envExit hostEx [str "k1"] 0 (initTask [])).attempted =
      (initTask []).attempted ++ [0] :=
  remoteExitIsSuccess envExit hostEx (str "k1") [] 0 (initTask []) (str "fail-output") rfl rfl

/-- C7 (amended): an unreadable credential directory degrades to an empty
credential list and the run continues, but a per-host task given the empty
catalog terminates immediately without emitting any outcome at all —
no Failure is reported. -/
theorem credStoreErrorDegrades (env : TaskEnv) (h : host) (sh : Str) :
    readCerts none = [] ∧ hostTask env h (readCerts none) sh = initTask sh :=
  ⟨rfl, rfl⟩

/-- C7 counterexample: with the degraded empty credential list, a task
emits no Failure outcome (and no success either), contrary to the claim
that each task fails reporting a Failure outcome. -/
theorem emptyCerts_noFailure_counterexample :
    (hostTask envFailAll hostEx (readCerts none) []).errsSent = [] ∧
    (hostTask envFailAll hostEx (readCerts none) []).outSent = none := by decide

/-- C3 (code bug): in the spec's own scenario — inventory
`"web:\nalice@10.0.0.1 ~/.ssh/k1\n"`, working credential `k1` — the
parsed record normalises the address to `10.0.0.1:22` and expands `~`, so
the match string `alice@10.0.0.1:22 /home/bob/.ssh/k1` never occurs in
the retained raw text: the hosts file is rewritten with its content
unchanged and the `alice@10.0.0.1` line is NOT removed. -/
theorem retireLineNotRemoved_bug :
    unmarshal ⟨str "bob", str "/home/bob"⟩ [str "web:", str "alice@10.0.0.1 ~/.ssh/k1"] =
      .ok [(str "web", [⟨str "alice", str "10.0.0.1:22", str "/home/bob/.ssh/k1"⟩])] ∧
    (hostTask ⟨fun _ => .cmdRan (str "hi\n") none, true⟩
        ⟨str "alice", str "10.0.0.1:22", str "/home/bob/.ssh/k1"⟩ [str "k1"]
        (rawText [str "web:", str "alice@10.0.0.1 ~/.ssh/k1"])).hostsWrites =
      [rawText [str "web:", str "alice@10.0.0.1 ~/.ssh/k1"]] ∧
    (hostTask ⟨fun _ => .cmdRan (str "hi\n") none, true⟩
        ⟨str "alice", str "10.0.0.1:22", str "/home/bob/.ssh/k1"⟩ [str "k1"]
        (rawText [str "web:", str "alice@10.0.0.1 ~/.ssh/k1"])).saveHosts =
      rawText [str "web:", str "alice@10.0.0.1 ~/.ssh/k1"] := by decide

/-- C4 counterexample: a task failure processed after the signal goroutine
has set the cancellation code overwrites it with the generic failure code
1 (`code = 1` at source line 266 is unconditional) — the signal code does
not take precedence once set. -/
theorem signalCodeOverwritten_counterexample :
    (aggRun [.sigFired .sigint, .errMsg]).code = 1 ∧
    (aggRun [.sigFired .sigint, .errMsg]).code ≠ codes .sigint := by decide

/-- C4 (amended): the aggregation loop ends once a stream closure or
cancellation falsifies the loop condition, and the final exit code is
always one of 0 (success), 1 (generic task failure), 130 or 137 (the
signal table); but the code is last-write-wins rather than
signal-takes-precedence. -/
theorem aggLoopCodeAndTermination (evts : List AggEvent) :
    ((aggRun evts).code = 0 ∨ (aggRun evts).code = 1 ∨
     (aggRun evts).code = 130 ∨ (aggRun evts).code = 137) ∧
    aggLive (aggRun (evts ++ [.ctxDone])) = false ∧
    aggLive (aggRun (evts ++ [.errClosed, .outClosed])) = false := by
  have hc := aggRun_code_mem evts ⟨0, false, false⟩ (Or.inl rfl)
  refine ⟨?_, ?_, ?_⟩
  · unfold aggRun; exact hc
  · unfold aggRun
    rw [List.foldl_append, List.foldl_cons, List.foldl_nil]
    exact aggLive_ctxDone _
  · unfold aggRun
    rw [List.foldl_append, List.foldl_cons, List.foldl_cons, List.foldl_nil]
    exact aggLive_bothClosed _

/-- C8: when the requested cluster name is absent from the parsed
inventory, startup exits with code 1 having spawned no per-host task and
performed no hosts-file write or audit append. -/
theorem unknownClusterExitsClean (env : Env) (args : List Str) (ls : List Str) (m : ClusterMap)
    (hargs : ¬ args.length < 3)
    (hum : unmarshal env ls = .ok m)
    (hlook : mapLookup m (args.getD 1 []) = none) :
    mainStartup env args (some ls) = ⟨some 1, [], [], []⟩ := by
  simp only [mainStartup, if_neg hargs, hum, hlook]

/-- Witness for C8: a three-argument invocation naming cluster `web`
against an inventory containing only an empty `db:` section. -/
theorem unknownClusterExitsClean_witness :
    mainStartup ⟨str "bob", str "/home/bob"⟩ [str "cl", str "web", str "echo"]
      (some [str "db:"]) = ⟨some 1, [], [], []⟩ :=
  unknownClusterExitsClean _ _ _ [] (by decide) (by decide) (by decide)

/-- C10: any inventory line whose trimmed text has an empty token right
after the first space (the first space immediately followed by another)
makes `unmarshal` index the first character of an empty credential-path
string: the parse is not total and aborts with the index-out-of-range
panic. -/
theorem unmarshalPanicOnEmptyToken (env : Env) (l t r : Str)
    (ht : trimSpace l = t ++ ' ' :: ' ' :: r)
    (htne : t ≠ []) (hts : ' ' ∉ t)
    (hhdr : (t ++ ' ' :: ' ' :: r).getLast? ≠ some ':') :
    unmarshal env [l] = .error .indexOutOfRange := by
  have hne : (trimSpace l).isEmpty = false := by
    rw [ht]
    obtain ⟨x, xs, rfl⟩ := List.exists_cons_of_ne_nil htne
    rfl
  have hhdr' : ((trimSpace l).getLast? == some ':') = false := by
    rw [ht]
    exact beq_eq_false_iff_ne.mpr hhdr
  have hbr : breakAtFirstChar ' ' (trimSpace l) = some (t, ' ' :: r) := by
    rw [ht]
    exact breakAtFirstChar_append _ hts
  have hparse : parseHostLine env (trimSpace l) = .error .indexOutOfRange := by
    simp [parseHostLine, hbr, List.takeWhile]
  simp [unmarshal, unmarshalLines, hne, hhdr', hparse]

/-- Witness for C10 at the line `a  b`. -/
theorem unmarshalPanicOnEmptyToken_witness :
    unmarshal ⟨str "bob", str "/home/bob"⟩ [str "a  b"] = .error .indexOutOfRange :=
  unmarshalPanicOnEmptyToken _ _ (str "a") (str "b")
    (by decide) (by decide) (by decide) (by decide)

/-- C9: a parsed host line takes `user` and `credentialPath` from the
ambient environment (current user name, `HOME/.ssh/id_rsa`) unless the
line overrides them with the explicit `user@host[:port] [credentialPath]`
form; a leading `~` in an explicit credential path is expanded to the home
directory; an absent port is stored as `:22` in the address. -/
theorem hostLineDefaultsAndOverrides (env : Env) (u hst p cr cs : Str)
    (hu1 : '@' ∉ u) (hu2 : ' ' ∉ u)
    (hh1 : ' ' ∉ hst) (hh2 : '@' ∉ hst) (hh3 : ':' ∉ hst)
    (hh4 : '[' ∉ hst) (hh5 : ']' ∉ hst) (hh6 : hst ≠ [])
    (hp1 : ' ' ∉ p) (hp2 : '@' ∉ p) (hp3 : ':' ∉ p)
    (hp4 : '[' ∉ p) (hp5 : ']' ∉ p) (hp6 : p ≠ [])
    (hc1 : ' ' ∉ cr) (hc2 : cr.head? ≠ some '~') (hc3 : cr ≠ [])
    (hs1 : ' ' ∉ cs) :
    parseHostLine env hst = .ok ⟨env.user, hst ++ [':', '2', '2'], defaultIdentity env⟩ ∧
    parseHostLine env (u ++ '@' :: hst ++ ':' :: p ++ ' ' :: cr) =
      .ok ⟨u, hst ++ ':' :: p, cr⟩ ∧
    parseHostLine env (u ++ '@' :: hst ++ ' ' :: '~' :: cs) =
      .ok ⟨u, hst ++ [':', '2', '2'], env.home ++ cs⟩ ∧
    parseHostLine env (hst ++ ' ' :: cr) = .ok ⟨env.user, hst ++ [':', '2', '2'], cr⟩ := by
  have htwcr : cr.takeWhile (fun c => !(c == ' ')) = cr :=
    takeWhile_all (fun x hx => by
      rcases eq_or_ne x ' ' with rfl | hne
      · exact absurd hx hc1
      · simp [hne])
  refine ⟨?_, ?_, ?_, ?_⟩
  · simp [parseHostLine, breakAtFirstChar_of_not_mem hh1, parseAddrUser_bare hh2 hh3]
  · have hA : ' ' ∉ u ++ '@' :: (hst ++ ':' :: p) := by
      intro hm
      rcases List.mem_append.mp hm with hm | hm
      · exact hu2 hm
      · rcases List.mem_cons.mp hm with he | hm
        · exact absurd he (by decide)
        · rcases List.mem_append.mp hm with hm | hm
          · exact hh1 hm
          · rcases List.mem_cons.mp hm with he | hm
            · exact absurd he (by decide)
            · exact hp1 hm
    have hb : breakAtFirstChar ' ' (u ++ '@' :: hst ++ ':' :: p ++ ' ' :: cr) =
        some (u ++ '@' :: (hst ++ ':' :: p), cr) := by
      have hb0 := breakAtFirstChar_append (a := u ++ '@' :: (hst ++ ':' :: p)) cr hA
      simpa using hb0
    obtain ⟨c0, cr', rfl⟩ := List.exists_cons_of_ne_nil hc3
    have hc0 : ¬ c0 = '~' := by
      intro he
      exact hc2 (by simp [he])
    simp only [parseHostLine, hb, htwcr]
    rw [if_neg hc0]
    rw [parseAddrUser_userHostPort hu1 hh2 hh3 hh4 hh5 hh6 hp2 hp3 hp4 hp5 hp6]
  · have hA : ' ' ∉ u ++ '@' :: hst := by
      intro hm
      rcases List.mem_append.mp hm with hm | hm
      · exact hu2 hm
      · rcases List.mem_cons.mp hm with he | hm
        · exact absurd he (by decide)
        · exact hh1 hm
    have hb : breakAtFirstChar ' ' (u ++ '@' :: (hst ++ ' ' :: '~' :: cs)) =
        some (u ++ '@' :: hst, '~' :: cs) := by
      have hb0 := breakAtFirstChar_append (a := u ++ '@' :: hst) ('~' :: cs) hA
      simpa using hb0
    have htw : ('~' :: cs).takeWhile (fun c => !(c == ' ')) = '~' :: cs :=
      takeWhile_all (fun x hx => by
        rcases List.mem_cons.mp hx with rfl | hm
        · decide
        · rcases eq_or_ne x ' ' with rfl | hne
          · exact absurd hm hs1
          · simp [hne])
    have hrep : replaceFirstChar '~' env.home ('~' :: cs) = env.home ++ cs := by
      simp [replaceFirstChar]
    simp [parseHostLine, hb, htw, hrep, parseAddrUser_userBare hu1 hh2 hh3]
  · have hb : breakAtFirstChar ' ' (hst ++ ' ' :: cr) = some (hst, cr) :=
      breakAtFirstChar_append cr hh1
    obtain ⟨c0, cr', rfl⟩ := List.exists_cons_of_ne_nil hc3
    have hc0 : ¬ c0 = '~' := by
      intro he
      exact hc2 (by simp [he])
    simp only [parseHostLine, hb, htwcr]
    rw [if_neg hc0]
    rw [parseAddrUser_bare hh2 hh3]

/-- Witness for C9 with user `alice`, host `h1`, port `2200`, credential
`/k` (and `~/x` for the tilde case) in the environment `USER=bob`,
`HOME=/home/bob`. -/
theorem hostLineDefaultsAndOverrides_witness :
    parseHostLine ⟨str "bob", str "/home/bob"⟩ (str "h1") =
      .ok ⟨(⟨str "bob", str "/home/bob"⟩ : Env).user, str "h1" ++ [':', '2', '2'],
            defaultIdentity ⟨str "bob", str "/home/bob"⟩⟩ ∧
    parseHostLine ⟨str "bob", str "/home/bob"⟩
        (str "alice" ++ '@' :: str "h1" ++ ':' :: str "2200" ++ ' ' :: str "/k") =
      .ok ⟨str "alice", str "h1" ++ ':' :: str "2200", str "/k"⟩ ∧
    parseHostLine ⟨str "bob", str "/home/bob"⟩
        (str "alice" ++ '@' :: str "h1" ++ ' ' :: '~' :: str "/x") =
      .ok ⟨str "alice", str "h1" ++ [':', '2', '2'],
            (⟨str "bob", str "/home/bob"⟩ : Env).home ++ str "/x"⟩ ∧
    parseHostLine ⟨str "bob", str "/home/bob"⟩ (str "h1" ++ ' ' :: str "/k") =
      .ok ⟨(⟨str "bob", str "/home/bob"⟩ : Env).user, str "h1" ++ [':', '2', '2'], str "/k"⟩ :=
  hostLineDefaultsAndOverrides ⟨str "bob", str "/home/bob"⟩
    (str "alice") (str "h1") (str "2200") (str "/k") (str "/x")
    (by decide) (by decide) (by decide) (by decide) (by decide) (by decide) (by decide)
    (by decide) (by decide) (by decide) (by decide) (by decide) (by decide) (by decide)
    (by decide) (by decide) (by decide) (by decide)

/-- Totality of `unmarshalLines` on inputs with no panic-triggering line. -/
theorem unmarshalLines_total {env : Env} :
    ∀ (ls : List Str) (curr : Str) (m : ClusterMap),
      (∀ l ∈ ls, goodLineB l = true) →
      (unmarshalLines env curr m ls).isOk = true
  | [], _, _, _ => rfl
  | l :: ls', curr, m, hgood => by
    have hl := hgood l (List.mem_cons_self _ _)
    have hrest : ∀ x ∈ ls', goodLineB x = true :=
      fun x hx => hgood x (List.mem_cons_of_mem _ hx)
    by_cases hE : (trimSpace l).isEmpty
    · simp only [unmarshalLines, hE, if_true]
      exact unmarshalLines_total ls' curr m hrest
    · have hE' : (trimSpace l).isEmpty = false := by simpa using hE
      by_cases hH : ((trimSpace l).getLast? == some ':') = true
      · simp only [unmarshalLines, hE, Bool.false_eq_true, if_false, hH, if_true]
        exact unmarshalLines_total ls' _ m hrest
      · have hH' : ((trimSpace l).getLast? == some ':') = false := by simpa using hH
        have hX : (match breakAtFirstChar ' ' (trimSpace l) with
                   | none => true
                   | some (_, rest) =>
                     !(rest.takeWhile (fun c => !(c == ' '))).isEmpty) = true := by
          have h2 := hl
          simp only [goodLineB, hE', hH', Bool.false_or] at h2
          exact h2
        cases hbr : breakAtFirstChar ' ' (trimSpace l) with
        | none =>
          have hp : parseHostLine env (trimSpace l) =
              .ok (parseAddrUser env (defaultIdentity env) (trimSpace l)) := by
            simp [parseHostLine, hbr]
          simp [unmarshalLines, hE', hH', hp]
          exact unmarshalLines_total ls' curr _ hrest
        | some pr =>
          rcases pr with ⟨p0, rest⟩
          rw [hbr] at hX
          replace hX : !(rest.takeWhile (fun c => !(c == ' '))).isEmpty = true := by
            simpa using hX
          have hcons : ∃ c cs, rest.takeWhile (fun c => !(c == ' ')) = c :: cs := by
            cases hq : rest.takeWhile (fun c => !(c == ' ')) with
            | nil => rw [hq] at hX; simp at hX
            | cons c cs => exact ⟨c, cs, rfl⟩
          obtain ⟨c, cs, hq⟩ := hcons
          have hp : parseHostLine env (trimSpace l) =
              .ok (parseAddrUser env
                (if c = '~' then replaceFirstChar '~' env.home (c :: cs) else c :: cs) p0) := by
            simp [parseHostLine, hbr, hq]
          simp [unmarshalLines, hE', hH', hp]
          exact unmarshalLines_total ls' curr _ hrest

/-- C5 (amended): `unmarshal` never reports a structured ParseError —
every trimmed non-blank line is interpreted as a section header (trailing
`:`) or treated as a host entry; its only failure mode is the
index-out-of-range panic on an empty token after a host line's first
space.  On inputs free of such lines it is total, and every host line is
appended to the section opened by the nearest preceding header (the
implicit unnamed section when there is none). -/
theorem unmarshalTotalNearestHeader (env : Env) (input : List Str)
    (hgood : ∀ l ∈ input, goodLineB l = true) :
    (unmarshal env input).isOk = true ∧
    ∀ pre l, input = pre ++ [l] →
      (trimSpace l).isEmpty = false →
      ((trimSpace l).getLast? == some ':') = false →
      ∀ m hrec, unmarshal env pre = .ok m →
        parseHostLine env (trimSpace l) = .ok hrec →
        unmarshal env input =
          .ok (mapSet m (sectionFold [] pre)
            ((mapLookup m (sectionFold [] pre)).getD [] ++ [hrec])) := by
  constructor
  · exact unmarshalLines_total input [] [] hgood
  · intro pre l hin hE hH m hrec hm hp
    rw [hin]
    show unmarshalLines env [] [] (pre ++ [l]) = _
    rw [unmarshalLines_append pre [] [] [l]]
    have hm' : unmarshalLines env [] [] pre = .ok m := hm
    rw [hm']
    simp [unmarshalLines, hE, hH, hp]

/-- Witness for C5's amended statement at the inventory `["web:", "a@b"]`. -/
theorem unmarshalTotalNearestHeader_witness :
    (unmarshal ⟨str "bob", str "/home/bob"⟩ [str "web:", str "a@b"]).isOk = true ∧
    ∀ pre l, [str "web:", str "a@b"] = pre ++ [l] →
      (trimSpace l).isEmpty = false →
      ((trimSpace l).getLast? == some ':') = false →
      ∀ m hrec, unmarshal ⟨str "bob", str "/home/bob"⟩ pre = .ok m →
        parseHostLine ⟨str "bob", str "/home/bob"⟩ (trimSpace l) = .ok hrec →
        unmarshal ⟨str "bob", str "/home/bob"⟩ [str "web:", str "a@b"] =
          .ok (mapSet m (sectionFold [] pre)
            ((mapLookup m (sectionFold [] pre)).getD [] ++ [hrec])) :=
  unmarshalTotalNearestHeader ⟨str "bob", str "/home/bob"⟩ [str "web:", str "a@b"] (by decide)

/-- C5 counterexample: the line `a@b@c` is neither a section header nor a
host entry of the spec's `[user@]host[:port] [credentialPath]` grammar,
yet `unmarshal` accepts the input instead of failing with a ParseError. -/
theorem noParseError_counterexample :
    specHeaderLine (str "a@b@c") = false ∧
    specHostEntryLine (str "a@b@c") = false ∧
    (unmarshal ⟨str "bob", str "/home/bob"⟩ [str "a@b@c"]).isOk = true := by decide
